import Mathlib

/-!
Verification of the preset-analytics-app repository: a shallow embedding of
the snapshot fetcher (`scripts/fetchPresetData.mjs`) and the viewer's
query/aggregation logic (`src/pages/AnalyticsPage.tsx`, `AuditLogsPage`,
`UsersPage`, `src/utils/search.ts`), together with theorems settling the
stated behavioural claims.

JSON values are modelled as a mutual inductive (`Value` / `ValueList` /
`Fields`) so that all program functions are structurally recursive and
evaluate inside the kernel.  An object's `Fields` list is taken to be the
object's JS property-iteration order (for objects built by the code itself
out of string keys this is insertion order; the one place where the code
builds records keyed by arbitrary strings and then iterates them -
`Object.entries` in the analytics aggregation - is modelled explicitly by
`jsEntriesNat`, which implements the ECMAScript own-property-key order:
canonical array-index keys first, ascending, then the rest in insertion
order).  JS `undefined` appearing as a stored property value is modelled by
`Value.undefVal`; an absent property is `Option.none` at access sites.
Numbers are modelled as `Int`: every numeric literal occurring in the
claims and in the repository's data paths is integral, and no claim
depends on float behaviour.  String case-lowering is modelled per
character (ASCII range), matching JS `toLowerCase` on the data the
claims exercise.
-/

mutual

inductive Value where
  | null
  | undefVal
  | bool (b : Bool)
  | num (n : Int)
  | str (s : String)
  | arr (xs : ValueList)
  | obj (fs : Fields)

inductive ValueList where
  | nil
  | cons (v : Value) (rest : ValueList)

inductive Fields where
  | nil
  | cons (k : String) (v : Value) (rest : Fields)

end

namespace ValueList

def toList : ValueList → List Value
  | .nil => []
  | .cons v rest => v :: toList rest

def ofList : List Value → ValueList
  | [] => .nil
  | v :: rest => .cons v (ofList rest)

end ValueList

namespace Fields

def toList : Fields → List (String × Value)
  | .nil => []
  | .cons k v rest => (k, v) :: toList rest

def ofList : List (String × Value) → Fields
  | [] => .nil
  | (k, v) :: rest => .cons k v (ofList rest)

end Fields

mutual

/-- Structural (SameValueZero-style) equality on modelled JSON values, as
used by JS `Map` keys in the viewer's user derivation. -/
def vbeq : Value → Value → Bool
  | .null, .null => true
  | .undefVal, .undefVal => true
  | .bool a, .bool b => a == b
  | .num a, .num b => a == b
  | .str a, .str b => a == b
  | .arr a, .arr b => vlbeq a b
  | .obj a, .obj b => fbeq a b
  | _, _ => false

def vlbeq : ValueList → ValueList → Bool
  | .nil, .nil => true
  | .cons a as, .cons b bs => vbeq a b && vlbeq as bs
  | _, _ => false

def fbeq : Fields → Fields → Bool
  | .nil, .nil => true
  | .cons k a as, .cons l b bs => k == l && vbeq a b && fbeq as bs
  | _, _ => false

end

/-- JS truthiness of a value (`NaN` and `-0` do not arise in the model). -/
def truthy : Value → Bool
  | .null => false
  | .undefVal => false
  | .bool b => b
  | .num n => n != 0
  | .str s => s ≠ ""
  | .arr _ => true
  | .obj _ => true

/-- Truthiness of a possibly-undefined expression result (`none` models a
property access that produced `undefined` because the key is absent or the
receiver is not an object). -/
def truthyOpt : Option Value → Bool
  | none => false
  | some v => truthy v

/-- Property read `o[k]` (also covering optional chaining: non-objects and
absent keys give `none`). -/
def jsGet (v : Value) (key : String) : Option Value :=
  match v with
  | .obj fs => go fs
  | _ => none
where
  go : Fields → Option Value
    | .nil => none
    | .cons k x rest => if k = key then some x else go rest

/-- `a?.k` on an optional receiver. -/
def jsGetOpt (v : Option Value) (key : String) : Option Value :=
  match v with
  | none => none
  | some w => jsGet w key

/-- JS `a || b`. -/
def jsOr (a b : Option Value) : Option Value :=
  if truthyOpt a then a else b

/-- JS `a && b`. -/
def jsAnd (a b : Option Value) : Option Value :=
  if truthyOpt a then b else a

/-- JS `a ?? b`. -/
def jsNullish (a b : Option Value) : Option Value :=
  match a with
  | none => b
  | some .null => b
  | some .undefVal => b
  | some v => some v

/-- JS `String(v)` on the value shapes the claims exercise (strings,
numbers, booleans, null/undefined). -/
def jsToString : Value → String
  | .null => "null"
  | .undefVal => "undefined"
  | .bool b => if b then "true" else "false"
  | .num n => toString n
  | .str s => s
  | .arr _ => ""
  | .obj _ => "[object Object]"

/-- Strict comparison `v === s` against a string literal. -/
def strictEqStr (v : Value) (s : String) : Bool :=
  match v with
  | .str t => t = s
  | _ => false

def strictEqStrOpt (v : Option Value) (s : String) : Bool :=
  match v with
  | some w => strictEqStr w s
  | none => false

/-- Per-character lowercase (JS `toLowerCase` on the ASCII data in play);
defined over the character list so it evaluates in the kernel. -/
def lowerStr (s : String) : String :=
  ⟨s.data.map Char.toLower⟩

/-- JS `String.prototype.trim` (drop leading/trailing whitespace). -/
def trimStr (s : String) : String :=
  ⟨((s.data.dropWhile Char.isWhitespace).reverse.dropWhile Char.isWhitespace).reverse⟩

/-! ### `src/utils/search.ts` -/

def isPrefixOfB : List Char → List Char → Bool
  | [], _ => true
  | _ :: _, [] => false
  | a :: as, b :: bs => a == b && isPrefixOfB as bs

def isInfixOfB (n : List Char) : List Char → Bool
  | [] => isPrefixOfB n []
  | b :: bs => isPrefixOfB n (b :: bs) || isInfixOfB n bs

/-- JS `hay.includes(needle)` (substring test). -/
def jsIncludes (hay needle : String) : Bool :=
  isInfixOfB needle.data hay.data

mutual

/-- The inner `visit` closure of `search` in `src/utils/search.ts`:
`needle` is the lowercased query. -/
def visit (needle : String) : Value → Bool
  | .null => false
  | .undefVal => false
  | .bool b => jsIncludes (lowerStr (jsToString (.bool b))) needle
  | .num n => jsIncludes (lowerStr (jsToString (.num n))) needle
  | .str s => jsIncludes (lowerStr s) needle
  | .arr xs => visitList needle xs
  | .obj fs => visitFields needle fs

def visitList (needle : String) : ValueList → Bool
  | .nil => false
  | .cons v rest => visit needle v || visitList needle rest

def visitFields (needle : String) : Fields → Bool
  | .nil => false
  | .cons _ v rest => visit needle v || visitFields needle rest

end

/-- `search(obj, q)` from `src/utils/search.ts`. -/
def search (v : Value) (q : String) : Bool :=
  if q = "" then true else visit (lowerStr q) v

mutual

/-- `v` has the string `s` as a leaf value at some depth. -/
def hasStrLeaf (s : String) : Value → Bool
  | .str t => t = s
  | .arr xs => hasStrLeafList s xs
  | .obj fs => hasStrLeafFields s fs
  | _ => false

def hasStrLeafList (s : String) : ValueList → Bool
  | .nil => false
  | .cons v rest => hasStrLeaf s v || hasStrLeafList s rest

def hasStrLeafFields (s : String) : Fields → Bool
  | .nil => false
  | .cons _ v rest => hasStrLeaf s v || hasStrLeafFields s rest

end


/-! ### Audit-log field flattening (`AuditLogsPage` expanded-row `walk`) -/

/-- `pushRow` from the expanded-row renderer: emits one `(path, value)`
row unless the full dotted path is exactly the top-level `params` or
`query_context` key.  (The display formatting of the value is
presentation-only; the row keeps the raw value.) -/
def pushRow (path : String) (value : Value) : List (String × Value) :=
  if path = "params" ∨ path = "query_context" then [] else [(path, value)]

/-- `prefix.slice(0, -1)` (drop the trailing dot). -/
def dropLast1 (s : String) : String :=
  ⟨s.data.dropLast⟩

mutual

/-- `walk(obj, prefix)` from the expanded-row renderer: null, scalars and
arrays are emitted as a single row at the prefix; objects are iterated
key by key. -/
def walkVal (v : Value) (pre : String) : List (String × Value) :=
  match v with
  | .obj fs => walkFields fs pre
  | w => pushRow (dropLast1 pre) w

/-- The `for (const [k,v] of Object.entries(obj))` body: a non-null,
non-array object value whose key is not `params`/`query_context` gets a
synthetic summary row (the source emits it identically whether or not the
object is empty) and is recursed into; every other value - including a
nested object keyed `params`/`query_context` - gets a single row. -/
def walkFields (fs : Fields) (pre : String) : List (String × Value) :=
  match fs with
  | .nil => []
  | .cons k v rest =>
      (match v with
       | .obj inner =>
           if k = "params" ∨ k = "query_context" then pushRow (pre ++ k) (.obj inner)
           else pushRow (pre ++ k) (.obj inner) ++ walkVal (.obj inner) (pre ++ k ++ ".")
       | w => pushRow (pre ++ k) w)
      ++ walkFields rest pre

end

/-- `walk(log)`: the full emitted row list for one record. -/
def walkRows (log : Value) : List (String × Value) :=
  walkVal log ""

/-- The dotted paths emitted for one record, in emission order. -/
def walkPaths (log : Value) : List String :=
  (walkRows log).map Prod.fst

/-- The record `{a: {b: 1}, params: {x: 1}, details: {params: {y: 2}}}`. -/
def flattenExample : Value :=
  .obj (.cons "a" (.obj (.cons "b" (.num 1) .nil))
       (.cons "params" (.obj (.cons "x" (.num 1) .nil))
       (.cons "details" (.obj (.cons "params" (.obj (.cons "y" (.num 2) .nil)) .nil)) .nil)))


/-! ### `AnalyticsPage` - workspace list, filter, aggregation -/

inductive TRange where
  | week
  | month
  | year

/-- The three windows of the time-range filter, in milliseconds. -/
def rangeMs : TRange → Int
  | .week => 7 * 24 * 3600 * 1000
  | .month => 30 * 24 * 3600 * 1000
  | .year => 365 * 24 * 3600 * 1000

/-- The workspace title recorded into the selectable-list `Set`:
`(l.workspace_title || l.workspace_name || 'unknown').trim() || 'unknown'`
(string coercion totalises `.trim()` for non-string truthy fields, which
would throw in JS and do not occur in the data). -/
def wsTitleOf (l : Value) : String :=
  let raw := jsToString ((jsOr (jsOr (jsGet l "workspace_title") (jsGet l "workspace_name"))
    (some (.str "unknown"))).getD .undefVal)
  let t := trimStr raw
  if t = "" then "unknown" else t

/-- Insertion-ordered de-duplication (JS `Set` iteration order). -/
def dedupFirstAux (seen : List String) : List String → List String
  | [] => []
  | x :: xs => if seen.contains x then dedupFirstAux seen xs
               else x :: dedupFirstAux (seen ++ [x]) xs

def dedupFirst (xs : List String) : List String :=
  dedupFirstAux [] xs

/-- First element of the set matching `name` case-insensitively. -/
def findCI (name : String) : List String → Option String
  | [] => none
  | f :: fs => if lowerStr f = lowerStr name then some f else findCI name fs

def removeFirst (f : String) : List String → List String
  | [] => []
  | x :: xs => if x = f then xs else x :: removeFirst f xs

/-- The `desiredOrder.forEach` pass: picks, per preferred name, the first
case-insensitive match out of the found set and deletes it. -/
def pickDesired : List String → List String → List String × List String
  | [], found => ([], found)
  | n :: ns, found =>
      match findCI n found with
      | some f =>
          let rec2 := pickDesired ns (removeFirst f found)
          (f :: rec2.1, rec2.2)
      | none => pickDesired ns found

/-- Code-unit lexicographic order standing in for `localeCompare`. -/
def listLtChars : List Char → List Char → Bool
  | [], [] => false
  | [], _ :: _ => true
  | _ :: _, [] => false
  | a :: as, b :: bs =>
      if a.toNat < b.toNat then true
      else if b.toNat < a.toNat then false
      else listLtChars as bs

def strLtB (a b : String) : Bool :=
  listLtChars a.data b.data

def insertAsc (x : String) : List String → List String
  | [] => [x]
  | y :: ys => if strLtB y x then y :: insertAsc x ys else x :: y :: ys

/-- Stable ascending sort (JS `Array.prototype.sort` with `localeCompare`). -/
def sortAsc : List String → List String
  | [] => []
  | x :: xs => insertAsc x (sortAsc xs)

/-- The selectable workspace list (`workspaces` memo, `AnalyticsPage`
lines 49-70): `ALL`, then the case-insensitively matched preferred names
`Production`, `Pre-Production`, `Sandbox`, `unknown`, then the remaining
found names sorted. -/
def workspacesList (logs : List Value) : List String :=
  let found := dedupFirst (logs.map wsTitleOf)
  let picked := pickDesired ["Production", "Pre-Production", "Sandbox", "unknown"] found
  let ordered := "ALL" :: picked.1
  let remaining := sortAsc (picked.2.filter (fun f => ¬ ordered.contains f))
  ordered ++ remaining

/-- Viewer-side filter context: `now` is `Date.now()`; `parseDate` models
`Date.parse` composed with JS string coercion, `none` standing for `NaN`. -/
structure FilterCtx where
  parseDate : Value → Option Int
  now : Int

/-- The filter callback of the `filtered` memo (`AnalyticsPage` lines
72-83), clause for the workspace: note the default is the literal
`'Unknown'` (capital U). -/
def passesWorkspace (workspace : String) (l : Value) : Bool :=
  if workspace ≠ "ALL" ∧
      ¬ strictEqStrOpt (jsOr (jsOr (jsGet l "workspace_title") (jsGet l "workspace_name"))
        (some (.str "Unknown"))) workspace then false
  else true

/-- The query clause: `if (query && !search(l, query)) return false`. -/
def passesQuery (query : String) (l : Value) : Bool :=
  if query ≠ "" ∧ search l query = false then false else true

/-- The time-range clause: `ts = l.timestamp ? Date.parse(l.timestamp) :
NaN; if (!isNaN(ts) && ts < cutoff) return false`. -/
def passesTime (ctx : FilterCtx) (range : TRange) (l : Value) : Bool :=
  let cutoff := ctx.now - rangeMs range
  let ts : Option Int :=
    if truthyOpt (jsGet l "timestamp") then ctx.parseDate ((jsGet l "timestamp").getD .undefVal)
    else none
  match ts with
  | some t => if t < cutoff then false else true
  | none => true

def logPasses (ctx : FilterCtx) (workspace query : String) (range : TRange) (l : Value) : Bool :=
  passesWorkspace workspace l && passesQuery query l && passesTime ctx range l

/-- The `filtered` memo over the loaded logs. -/
def filteredLogs (ctx : FilterCtx) (workspace query : String) (range : TRange)
    (logs : List Value) : List Value :=
  logs.filter (logPasses ctx workspace query range)


/-! ### `AnalyticsPage` aggregation (`metrics` memo, lines 85-108) -/

/-- A JS `Record<string, number>` in property insertion order. -/
abbrev CountMap := List (String × Nat)

/-- `m[k] = (m[k] || 0) + 1`: an existing key keeps its position, a new
key is appended. -/
def mapIncr (m : CountMap) (k : String) : CountMap :=
  if m.any (fun p => p.1 = k) then
    m.map (fun p => if p.1 = k then (p.1, p.2 + 1) else p)
  else m ++ [(k, 1)]

/-- Canonical-array-index test on a property key (an integer string
without leading zeros, below 2^32 - 1), as in ECMAScript own-property-key
ordering. -/
def digitsNat : List Char → Option Nat
  | [] => none
  | cs => go cs 0
where
  go : List Char → Nat → Option Nat
    | [], acc => some acc
    | c :: rest, acc => if c.isDigit then go rest (acc * 10 + (c.toNat - 48)) else none

def isArrayIndexKey (s : String) : Bool :=
  match digitsNat s.data with
  | some n => toString n = s && n < 4294967295
  | none => false

def keyNatOf (s : String) : Nat :=
  (digitsNat s.data).getD 0

def insertIdxAsc (x : String × Nat) : CountMap → CountMap
  | [] => [x]
  | y :: ys => if keyNatOf y.1 < keyNatOf x.1 then y :: insertIdxAsc x ys else x :: y :: ys

def sortIdxAsc : CountMap → CountMap
  | [] => []
  | x :: xs => insertIdxAsc x (sortIdxAsc xs)

/-- `Object.entries(m)`: canonical array-index keys first in ascending
numeric order, then the remaining keys in insertion order. -/
def jsEntriesNat (m : CountMap) : CountMap :=
  sortIdxAsc (m.filter (fun p => isArrayIndexKey p.1)) ++
    m.filter (fun p => ¬ isArrayIndexKey p.1)

/-- Stable insertion for the descending-by-value sort: an element goes
after every earlier element of greater-or-equal value (JS stable
`sort((a,b) => b.value - a.value)`). -/
def insertDesc (x : String × Nat) : CountMap → CountMap
  | [] => [x]
  | y :: ys => if y.2 > x.2 then y :: insertDesc x ys else x :: y :: ys

def sortDesc : CountMap → CountMap
  | [] => []
  | x :: xs => insertDesc x (sortDesc xs)

/-- `toSorted` from the `metrics` memo: entries of the counting map,
sorted descending by count. -/
def toSorted (m : CountMap) : CountMap :=
  sortDesc (jsEntriesNat m)

/-- The four counting maps built by the `filtered.forEach` body. -/
structure Maps where
  chartMap : CountMap
  dashMap : CountMap
  userMap : CountMap
  actionMap : CountMap

/-- One iteration of `filtered.forEach(l => ...)`. -/
def metricsStep (m : Maps) (l : Value) : Maps :=
  let action := jsOr (jsOr (jsGet l "action") (jsGet l "event")) (jsGet l "type")
  let m1 := if truthyOpt action then
      { m with actionMap := mapIncr m.actionMap (jsToString (action.getD .undefVal)) }
    else m
  let user : String :=
    match jsGet l "user" with
    | some (.str s) => s
    | _ => jsToString ((jsOr (jsOr (jsGetOpt (jsGet l "user") "email") (jsGet l "user_email"))
        (some (.str "Unknown"))).getD .undefVal)
  let m2 := { m1 with userMap := mapIncr m1.userMap user }
  let m3 := if strictEqStrOpt action "chart:view" ∧ truthyOpt (jsGet l "entity_name") then
      { m2 with chartMap := mapIncr m2.chartMap (jsToString ((jsGet l "entity_name").getD .undefVal)) }
    else m2
  if strictEqStrOpt action "dashboard:view" ∧ truthyOpt (jsGet l "entity_name") then
    { m3 with dashMap := mapIncr m3.dashMap (jsToString ((jsGet l "entity_name").getD .undefVal)) }
  else m3

def metricsMaps (ls : List Value) : Maps :=
  ls.foldl metricsStep ⟨[], [], [], []⟩

/-- `metrics.chartViews` (the `if (!filtered.length)` early-out included). -/
def metricsChartViews (ls : List Value) : CountMap :=
  if ls.length = 0 then [] else toSorted (metricsMaps ls).chartMap

def metricsDashboardViews (ls : List Value) : CountMap :=
  if ls.length = 0 then [] else toSorted (metricsMaps ls).dashMap

def metricsActiveUsers (ls : List Value) : CountMap :=
  if ls.length = 0 then [] else toSorted (metricsMaps ls).userMap

def metricsActionCounts (ls : List Value) : CountMap :=
  if ls.length = 0 then [] else toSorted (metricsMaps ls).actionMap

/-- A `chart:view` event on a named entity. -/
def chartViewOn (name : String) : Value :=
  .obj (.cons "action" (.str "chart:view") (.cons "entity_name" (.str name) .nil))


/-! ### Fetcher pagination (`tryEndpoints`, `scripts/fetchPresetData.mjs`
lines 136-154) -/

/-- An HTTP exchange as seen by the paginated loop: status plus parsed
JSON body (`res.json()`). -/
structure HttpResp where
  status : Nat
  json : Value

/-- `res.ok`: status in the 2xx range. -/
def respOk (r : HttpResp) : Bool :=
  200 ≤ r.status && r.status < 300

/-- The responses a candidate endpoint gives per page number; `none`
models `api` returning `undefined` (network/auth failure). -/
abbrev PageEnv := Nat → Option HttpResp

/-- `Array.isArray(json?.result) ? json.result : Array.isArray(json?.data)
? json.data : Array.isArray(json) ? json : []`. -/
def pagedItems (json : Value) : List Value :=
  match jsGet json "result" with
  | some (.arr xs) => xs.toList
  | _ =>
    match jsGet json "data" with
    | some (.arr xs) => xs.toList
    | _ =>
      match json with
      | .arr xs => xs.toList
      | _ => []

inductive PagResult where
  | ok (items : List Value)
  | err (msg : String)

/-- The `while (true)` pagination loop for one candidate endpoint,
entered with `page` pages already consumed; returns the loop outcome
(`err` models a thrown exception caught by the candidate loop) paired
with the number of page requests issued.  The `page > 50` cap is checked,
as in the source, only after the request for the incremented page has
been issued and its items accepted. -/
def pagLoop (env : PageEnv) (pageSize : Nat) (page : Nat) (out : List Value) (reqs : Nat) :
    PagResult × Nat :=
  let page1 := page + 1
  match env page1 with
  | none => (.err "No response", reqs + 1)
  | some res =>
    if res.status = 404 then (.ok out, reqs + 1)
    else if ¬ respOk res then (.err "HTTP error", reqs + 1)
    else
      let items := pagedItems res.json
      if items.length = 0 then
        if page1 = 1 then (.err "Empty first page", reqs + 1) else (.ok out, reqs + 1)
      else
        let out2 := out ++ items
        if ¬ truthyOpt (jsGet res.json "result") ∨ items.length < pageSize then (.ok out2, reqs + 1)
        else if h : page1 > 50 then (.ok out2, reqs + 1)
        else pagLoop env pageSize page1 out2 (reqs + 1)
termination_by 51 - page
decreasing_by omega

/-- One candidate endpoint's paginated fetch, from a fresh loop state. -/
def pagedFetch (env : PageEnv) (pageSize : Nat) : PagResult × Nat :=
  pagLoop env pageSize 0 [] 0

/-- A 200 response whose body is `{result: [null, ..., null]}` with `n`
items. -/
def fullPage (n : Nat) : HttpResp :=
  ⟨200, .obj (.cons "result" (.arr (ValueList.ofList (List.replicate n .null))) .nil)⟩

/-- Page sizes 100, 100, 40, then full pages forever (so any fourth
request would be visible in the request count and the item total). -/
def env240 : PageEnv :=
  fun p => if p = 3 then some (fullPage 40) else some (fullPage 100)

/-- An endpoint that always returns a full 100-item `result` page. -/
def envFull : PageEnv :=
  fun _ => some (fullPage 100)



/-! ### Fetcher authentication (`obtainJWT` / `extractJWT`, lines 30-111) -/

/-- An auth-endpoint exchange: status, parsed JSON body and the response
headers the code reads. -/
structure AuthResp where
  status : Nat
  json : Value
  authHeader : Option String
  xAccessToken : Option String
  setCookie : Option String

/-- `res.ok` for an auth exchange. -/
def authRespOk (r : AuthResp) : Bool :=
  200 ≤ r.status && r.status < 300

/-- The three requests `obtainJWT` can issue, in the order the code can
issue them. -/
inductive AuthReq where
  | postPrimary
  | postLegacy
  | basicGet
deriving DecidableEq

/-- The network's behaviour for one run: the response to the primary-body
JSON POST, to the legacy-body retry POST, and to the Basic GET (`none`
models a thrown fetch error). -/
structure AuthEnv where
  postPrimary : Option AuthResp
  postLegacy : Option AuthResp
  basicGet : Option AuthResp

/-- Tokenizer for `s.split(/\s+/)`: maximal non-whitespace runs
(`cur` accumulates the current run, reversed). -/
def wsRunsAux (cur : List Char) : List Char → List String
  | [] => if cur.isEmpty then [] else [⟨cur.reverse⟩]
  | c :: rest =>
    if c.isWhitespace then
      (if cur.isEmpty then [] else [⟨cur.reverse⟩]) ++ wsRunsAux [] rest
    else wsRunsAux (c :: cur) rest

def wsRuns (cs : List Char) : List String :=
  wsRunsAux [] cs

def jsSplitWs (s : String) : List String :=
  match s.data with
  | [] => [""]
  | c :: rest =>
    (if c.isWhitespace then [""] else []) ++ wsRuns (c :: rest) ++
      (if (c :: rest).getLast (by simp) |>.isWhitespace then [""] else [])

/-- `auth.split(/\s+/).pop()`. -/
def lastWsToken (s : String) : String :=
  (jsSplitWs s).getLastD ""

/-- One truthy candidate out of the body-location priority list
(`candidates.filter(Boolean)[0]`). -/
def firstTruthy (cs : List (Option Value)) : Option Value :=
  match cs with
  | [] => none
  | c :: rest =>
    match c with
    | some v => if truthy v then some v else firstTruthy rest
    | none => firstTruthy rest

/-- `extractJWT(json, headers)` (lines 88-111). -/
def extractJWT (json : Value) (authHeader xTok : Option String) : Option Value :=
  if ¬ truthy json then none
  else
    match firstTruthy [jsGet json "jwt", jsGet json "access_token", jsGet json "token",
        jsGet json "id_token",
        jsGetOpt (jsGet json "payload") "access_token", jsGetOpt (jsGet json "payload") "token",
        jsGetOpt (jsGet json "data") "jwt", jsGetOpt (jsGet json "data") "access_token",
        jsGetOpt (jsGet json "result") "jwt", jsGetOpt (jsGet json "result") "token"] with
    | some v => some v
    | none =>
      match authHeader with
      | some a =>
        if a ≠ "" ∧ jsIncludes (lowerStr a) "bearer " then some (.str (lastWsToken a))
        else
          match xTok with
          | some t => if t ≠ "" then some (.str t) else none
          | none => none
      | none =>
        match xTok with
        | some t => if t ≠ "" then some (.str t) else none
        | none => none

/-- Lookahead of the cookie-splitting regex `,(?=[^;]+;)`: at least one
non-semicolon character followed by a semicolon. -/
def cookieLookahead (rest : List Char) : Bool :=
  (rest.takeWhile (fun c => c ≠ ';')) ≠ [] && (rest.dropWhile (fun c => c ≠ ';')) ≠ []

/-- Split of the raw `set-cookie` string at every comma the lookahead
accepts. -/
def splitCookieParts : List Char → List (List Char)
  | [] => [[]]
  | c :: rest =>
    if c = ',' ∧ cookieLookahead rest then [] :: splitCookieParts rest
    else
      match splitCookieParts rest with
      | p :: ps => (c :: p) :: ps
      | [] => [[c]]

def joinSemiSp : List String → String
  | [] => ""
  | [x] => x
  | x :: y :: rest => x ++ "; " ++ joinSemiSp (y :: rest)

/-- `setCookie.split(/,(?=[^;]+;)/).map(s => s.split(';')[0]).join('; ')`. -/
def cookieJoin (raw : String) : String :=
  joinSemiSp ((splitCookieParts raw.data).map (fun p => ⟨p.takeWhile (fun c => c ≠ ';')⟩))

/-- `if (setCookie) sessionCookie = ...` for one response. -/
def capturedCookie (r : AuthResp) : Option String :=
  match r.setCookie with
  | some sc => if sc ≠ "" then some (cookieJoin sc) else none
  | none => none

/-- Truthiness of the `sessionCookie` module variable. -/
def cookieTruthy : Option String → Bool
  | some s => s ≠ ""
  | none => false

inductive AuthOutcome where
  | jwt (v : Value)
  | cookieAuth
  | failed (msg : String)

structure AuthRun where
  outcome : AuthOutcome
  cookie : Option String
  trace : List AuthReq

/-- The tail of `obtainJWT`: the Basic-GET fallback plus the final
`if (sessionCookie) return null; throw ...`, entered with the session
cookie captured so far and the requests already issued. -/
def authBasicPhase (env : AuthEnv) (cookie0 : Option String) (tr : List AuthReq) : AuthRun :=
  let tr2 := tr ++ [.basicGet]
  let final : Option String → AuthRun := fun c =>
    if cookieTruthy c then ⟨.cookieAuth, c, tr2⟩
    else ⟨.failed "Unable to obtain JWT or session cookie", c, tr2⟩
  match env.basicGet with
  | none => final cookie0
  | some res =>
    if authRespOk res then
      let cookie1 := match capturedCookie res with
        | some c => some c
        | none => cookie0
      match extractJWT res.json res.authHeader res.xAccessToken with
      | some v => if truthy v then ⟨.jwt v, cookie1, tr2⟩
                  else if cookieTruthy cookie1 then ⟨.cookieAuth, cookie1, tr2⟩
                  else final cookie1
      | none => if cookieTruthy cookie1 then ⟨.cookieAuth, cookie1, tr2⟩
                else final cookie1
    else final cookie0

/-- `obtainJWT()` from a fresh module state (no `PRESET_BEARER`, no cached
JWT, auth not yet attempted): the JSON-POST phase with its single legacy
retry on HTTP 400, falling back to `authBasicPhase`. -/
def obtainJWTFresh (env : AuthEnv) : AuthRun :=
  match env.postPrimary with
  | none => authBasicPhase env none [.postPrimary]
  | some r1 =>
    let retried := r1.status = 400
    let tr : List AuthReq := if retried then [.postPrimary, .postLegacy] else [.postPrimary]
    let resOpt : Option AuthResp := if retried then env.postLegacy else some r1
    match resOpt with
    | none => authBasicPhase env none tr
    | some res =>
      if authRespOk res then
        let cookie1 := capturedCookie res
        match extractJWT res.json res.authHeader res.xAccessToken with
        | some v => if truthy v then ⟨.jwt v, cookie1, tr⟩
                    else if cookieTruthy cookie1 then ⟨.cookieAuth, cookie1, tr⟩
                    else authBasicPhase env cookie1 tr
        | none => if cookieTruthy cookie1 then ⟨.cookieAuth, cookie1, tr⟩
                  else authBasicPhase env cookie1 tr
      else authBasicPhase env none tr

/-! ### Fetcher per-team fan-out (`main`, lines 228-310) -/

def hexDigitU (n : Nat) : Char :=
  if n < 10 then Char.ofNat (48 + n) else Char.ofNat (55 + n)

def isUnreservedURI (c : Char) : Bool :=
  c.isAlphanum || c ∈ [Char.ofNat 45, Char.ofNat 95, Char.ofNat 46, Char.ofNat 33,
    Char.ofNat 126, Char.ofNat 42, Char.ofNat 39, Char.ofNat 40, Char.ofNat 41]

/-- `encodeURIComponent`: unreserved characters kept, everything else
percent-encoded per UTF-8 byte. -/
def encodeURIComponent (s : String) : String :=
  ⟨(s.data.map (fun c =>
    if isUnreservedURI c then [c]
    else ((String.utf8EncodeChar c).map (fun b =>
      [Char.ofNat 37, hexDigitU (b.toNat / 16), hexDigitU (b.toNat % 16)])).flatten)).flatten⟩

/-- `String.prototype.replace` with a plain-string pattern: first
occurrence only. -/
def replaceFirstChars (sub repl : List Char) : List Char → List Char
  | [] => []
  | c :: rest =>
    if isPrefixOfB sub (c :: rest) then repl ++ (c :: rest).drop sub.length
    else c :: replaceFirstChars sub repl rest

def replaceFirst (s sub repl : String) : String :=
  ⟨replaceFirstChars sub.data repl.data s.data⟩

/-- The membership path patterns, default `PRESET_TEAM_MEMBERS_PATTERN`
first (line 188-195). -/
def teamMembersFallbacks : List String :=
  ["/v1/teams/{team_id}/memberships",
   "/v1/teams/{team_id}/memberships/",
   "/v1/teams/{team_id}/members",
   "/v1/teams/{team_id}/members/",
   "/v1/teams/{team_id}/users",
   "/v1/teams/{team_id}/users/"]

def buildEp (pattern cand : String) : String :=
  replaceFirst pattern "{team_id}" (encodeURIComponent cand)

/-- `t?.id || t?.team_id`. -/
def teamNumericId (t : Value) : Option Value :=
  jsOr (jsGet t "id") (jsGet t "team_id")

/-- `t?.name || t?.slug || t?.title`. -/
def teamNameId (t : Value) : Option Value :=
  jsOr (jsOr (jsGet t "name") (jsGet t "slug")) (jsGet t "title")

/-- `[...new Set([nameId, numericId, uuidId].filter(v => v !== undefined
&& v !== null).map(String))]`. -/
def teamIdentifiers (t : Value) : List String :=
  dedupFirst (([teamNameId t, teamNumericId t, jsGet t "uuid"].filterMap
    (fun v => match v with
      | some .null => none
      | some .undefVal => none
      | some w => some (jsToString w)
      | none => none)))

/-- `numericId ?? nameId`: the provenance value stored as `_team_id`. -/
def teamTag (t : Value) : Value :=
  (jsNullish (teamNumericId t) (teamNameId t)).getD .undefVal

/-- In-place update or append of one key of an object literal. -/
def setField : Fields → String → Value → Fields
  | .nil, k, v => .cons k v .nil
  | .cons k0 v0 rest, k, v =>
      if k0 = k then .cons k0 v rest else .cons k0 v0 (setField rest k v)

/-- The fields spread by `{...m, ...}` (non-objects spread to nothing;
no string member records occur). -/
def spreadFields : Value → Fields
  | .obj fs => fs
  | _ => .nil

/-- The flattened member record pushed for each fetched item (lines
262-274): spread of `m`, then the literal keys in source order. -/
def mkMember (tag : Value) (cand : String) (m : Value) : Value :=
  let u : Option Value := jsOr (jsGet m "user") (some (.obj .nil))
  let f0 := spreadFields m
  let f1 := setField f0 "_team_id" tag
  let f2 := setField f1 "_team_identifier_used" (.str cand)
  let f3 := setField f2 "email" ((jsGetOpt u "email").getD .undefVal)
  let f4 := setField f3 "first_name" ((jsGetOpt u "first_name").getD .undefVal)
  let f5 := setField f4 "last_name" ((jsGetOpt u "last_name").getD .undefVal)
  let f6 := setField f5 "username" ((jsGetOpt u "username").getD .undefVal)
  let f7 := setField f6 "user_id"
    ((jsNullish (jsGetOpt u "id") (jsNullish (jsGet m "user_id") (jsGet m "id"))).getD .undefVal)
  let f8 := setField f7 "team_role_name" ((jsGetOpt (jsGet m "team_role") "name").getD .undefVal)
  .obj f8

/-- `'user_id' in o || 'email' in o` on a candidate member element. -/
def looksMember (o : Value) : Bool :=
  match o with
  | .obj fs => hasK fs
  | _ => false
where
  hasK : Fields → Bool
    | .nil => false
    | .cons k _ rest => k = "user_id" || k = "email" || hasK rest

def objValues (v : Value) : List Value :=
  match v with
  | .obj fs => go fs
  | _ => []
where
  go : Fields → List Value
    | .nil => []
    | .cons _ x rest => x :: go rest

/-- The envelope chain for membership responses (lines 249-254). -/
def memberItemsBase (json : Value) : List Value :=
  match json with
  | .arr xs => xs.toList
  | _ =>
    match jsGet json "data" with
    | some (.arr xs) => xs.toList
    | _ =>
      match jsGet json "result" with
      | some (.arr xs) => xs.toList
      | _ =>
        match jsGet json "payload" with
        | some (.arr xs) => xs.toList
        | _ =>
          match jsGetOpt (jsGet json "payload") "data" with
          | some (.arr xs) => xs.toList
          | _ => []

/-- The last-resort scan (lines 255-260): first top-level array value one
of whose elements has a `user_id` or `email` key. -/
def scanForMembers (json : Value) : List Value :=
  go (objValues json)
where
  go : List Value → List Value
    | [] => []
    | v :: rest =>
      match v with
      | .arr xs => if xs.toList.any looksMember then xs.toList else go rest
      | _ => go rest

def memberItems (json : Value) : List Value :=
  let items := memberItemsBase json
  if items.length = 0 then scanForMembers json else items

/-- The network as seen by the fan-out: a response per URL (`none` models
`api` returning `undefined`). -/
abbrev UrlEnv := String → Option HttpResp

/-- The inner pattern loop for one candidate identifier (lines 240-285):
the first non-404, 2xx response is accepted - `got` is set and the loop
broken even when no items could be extracted from it. -/
def tryPatterns (env : UrlEnv) (tag : Value) (cand : String) : List String → Option (List Value)
  | [] => none
  | p :: ps =>
    match env (buildEp p cand) with
    | none => tryPatterns env tag cand ps
    | some res =>
      if res.status = 404 then tryPatterns env tag cand ps
      else if ¬ respOk res then tryPatterns env tag cand ps
      else some ((memberItems res.json).map (mkMember tag cand))

/-- The member fan-out for one team: candidate identifiers in order,
first accepted response wins. -/
def fetchTeamMembers (env : UrlEnv) (t : Value) : List Value :=
  go (teamIdentifiers t)
where
  go : List String → List Value
    | [] => []
    | c :: cs =>
      match tryPatterns env (teamTag t) c teamMembersFallbacks with
      | some items => items
      | none => go cs

/-- The envelope chain for audit-log responses (line 303). -/
def auditItems (json : Value) : List Value :=
  match json with
  | .arr xs => xs.toList
  | _ =>
    match jsGet json "data" with
    | some (.arr xs) => xs.toList
    | _ =>
      match jsGet json "result" with
      | some (.arr xs) => xs.toList
      | _ =>
        match jsGet json "payload" with
        | some (.arr xs) => xs.toList
        | _ =>
          match jsGet json "logs" with
          | some (.arr xs) => xs.toList
          | _ => []

/-- The audit-log record pushed per item (line 305): `{...l, _team_id:
numericId ?? nameId, _team_identifier_used: candidate}`. -/
def mkAuditRecord (tag : Value) (cand : String) (l : Value) : Value :=
  .obj (setField (setField (spreadFields l) "_team_id" tag) "_team_identifier_used" (.str cand))

/-- The audit-log fan-out for one team (lines 290-309): one endpoint per
candidate identifier, stopping at the first response with extractable
items (`auditTried` cannot fire because `uniqueIds` is already
de-duplicated). -/
def fetchAuditLogs (env : UrlEnv) (t : Value) : List Value :=
  go (teamIdentifiers t)
where
  go : List String → List Value
    | [] => []
    | c :: cs =>
      match env ("/v2/audit/teams/" ++ encodeURIComponent c ++ "/logs") with
      | none => go cs
      | some res =>
        if res.status = 404 then go cs
        else if ¬ respOk res then go cs
        else
          let items := auditItems res.json
          if items.length = 0 then go cs
          else items.map (mkAuditRecord (teamTag t) c)

/-! ### `UsersPage` derived users (lines 27-48) -/

/-- `m.user_id || m.id || (m.user && m.user.id)`. -/
def memberIdOf (m : Value) : Option Value :=
  jsOr (jsGet m "user_id") (jsOr (jsGet m "id")
    (jsAnd (jsGet m "user") (jsGetOpt (jsGet m "user") "id")))

/-- The derived user record stored by `map.set(id, {...})`. -/
def mkUser (id : Value) (m : Value) : Value :=
  .obj (.cons "id" id
    (.cons "first_name" ((jsOr (jsGet m "first_name") (jsGetOpt (jsGet m "user") "first_name")).getD .undefVal)
    (.cons "last_name" ((jsOr (jsGet m "last_name") (jsGetOpt (jsGet m "user") "last_name")).getD .undefVal)
    (.cons "email" ((jsOr (jsGet m "email") (jsGetOpt (jsGet m "user") "email")).getD .undefVal)
    (.cons "username" ((jsOr (jsGet m "username") (jsGetOpt (jsGet m "user") "username")).getD .undefVal)
    (.cons "roles" ((jsOr (jsGet m "roles") (some (.arr .nil))).getD .undefVal)
    (.cons "user_type" ((jsGet m "user_type").getD .undefVal)
    (.cons "team_role" ((jsOr (jsGet m "team_role_name") (jsGetOpt (jsGet m "team_role") "name")).getD .undefVal)
      .nil))))))))

/-- The `for (const m of membersRaw)` loop over an insertion-ordered
`Map` (value list paired with keys). -/
def usersFold (map : List (Value × Value)) : List Value → List (Value × Value)
  | [] => map
  | m :: ms =>
    if ¬ truthyOpt (memberIdOf m) then usersFold map ms
    else if map.any (fun p => vbeq p.1 ((memberIdOf m).getD .undefVal)) then usersFold map ms
    else usersFold (map ++ [((memberIdOf m).getD .undefVal,
      mkUser ((memberIdOf m).getD .undefVal) m)]) ms

/-- `Array.from(map.values())`: the users derived from member records
when `users.json` is empty. -/
def derivedUsers (ms : List Value) : List Value :=
  (usersFold [] ms).map Prod.snd

/-- Proof-side recursion: the entries `usersFold` appends beyond an
initial map whose key list is `seen`. -/
def usersNew (seen : List Value) : List Value → List (Value × Value)
  | [] => []
  | m :: ms =>
    if ¬ truthyOpt (memberIdOf m) then usersNew seen ms
    else if seen.any (fun s => vbeq s ((memberIdOf m).getD .undefVal)) then usersNew seen ms
    else ((memberIdOf m).getD .undefVal, mkUser ((memberIdOf m).getD .undefVal) m)
      :: usersNew (seen ++ [(memberIdOf m).getD .undefVal]) ms

/-! ### Concrete fixtures used by the theorems below -/

/-- A filter context whose `Date.parse` never succeeds, pinned at epoch 0. -/
def ctxNoParse : FilterCtx := ⟨fun _ => none, 0⟩

/-- A team `{id: 5, name: "alpha"}`. -/
def teamAlpha : Value := .obj (.cons "id" (.num 5) (.cons "name" (.str "alpha") .nil))

/-- One raw membership item `{user_id: 7}`. -/
def rawMemberAlpha : Value := .obj (.cons "user_id" (.num 7) .nil)

/-- A 200 membership response whose body is a bare one-item array. -/
def memPageResp : HttpResp := ⟨200, .arr (.cons rawMemberAlpha .nil)⟩

/-- A network that answers only the first membership pattern for the
name candidate `alpha`. -/
def memEnv : UrlEnv := fun url =>
  if url = "/v1/teams/alpha/memberships" then some memPageResp else none

/-- The single member record the fan-out produces for `teamAlpha`. -/
def memberAlpha : Value := mkMember (teamTag teamAlpha) "alpha" rawMemberAlpha

/-- A full first page, then an empty second page. -/
def envEmpty2 : PageEnv := fun p => if p = 1 then some (fullPage 100) else some (fullPage 0)

/-- A `Date.parse` model that parses only the string `"8d"`, to a moment
eight days before epoch 0. -/
def parse8d : Value → Option Int :=
  fun v => if vbeq v (.str "8d") then some (0 - 8 * 24 * 3600 * 1000) else none

def ctx8d : FilterCtx := ⟨parse8d, 0⟩

def log8d : Value := .obj (.cons "timestamp" (.str "8d") .nil)

def logBadTs : Value := .obj (.cons "timestamp" (.str "garbage") .nil)

def authResp400 : AuthResp := ⟨400, .null, none, none, none⟩

def authRespEmptyOk : AuthResp := ⟨200, .obj .nil, none, none, none⟩

def authRespToken : AuthResp := ⟨200, .obj (.cons "access_token" (.str "tok") .nil), none, none, none⟩

def authRespBasic : AuthResp := ⟨500, .null, none, none, none⟩

/-- Primary POST 400, legacy retry 200 with nothing usable, Basic 500. -/
def authEnvRetry : AuthEnv := ⟨some authResp400, some authRespEmptyOk, some authRespBasic⟩

/-- Primary POST 400, legacy retry 200 with a token. -/
def authEnvRetryTok : AuthEnv := ⟨some authResp400, some authRespToken, some authRespBasic⟩

def searchSample : Value := .obj (.cons "a" (.arr (.cons (.str "Hello World") .nil)) .nil)

/-- A member whose only id candidate is the falsy numeric `0`. -/
def zeroIdMember : Value := .obj (.cons "user_id" (.num 0) (.cons "email" (.str "x@y") .nil))

def dupMemberA : Value := .obj (.cons "user_id" (.num 7) (.cons "email" (.str "a@x") .nil))

def dupMemberB : Value := .obj (.cons "user_id" (.num 7) (.cons "email" (.str "b@x") .nil))

/-! ## Theorems: supporting lemmas -/

theorem toList_ofList (l : List Value) : (ValueList.ofList l).toList = l := by
  induction l with
  | nil => rfl
  | cons x xs ih => simp [ValueList.ofList, ValueList.toList, ih]

theorem pagedItems_fullPage (n : Nat) :
    pagedItems (fullPage n).json = List.replicate n .null := by
  simp [pagedItems, fullPage, jsGet, jsGet.go, toList_ofList]

theorem pagLoop_envFull_step (page : Nat) (out : List Value) (reqs : Nat) (h1 : page + 1 ≤ 50) :
    pagLoop envFull 100 page out reqs
      = pagLoop envFull 100 (page + 1) (out ++ List.replicate 100 Value.null) (reqs + 1) := by
  rw [pagLoop]
  simp only [envFull, fullPage, pagedItems_fullPage]
  rw [dif_neg (by omega : ¬ (page + 1 > 50))]
  simp [pagedItems, jsGet, jsGet.go, toList_ofList, truthyOpt, truthy, respOk]

theorem pagLoop_envFull_last (out : List Value) (reqs : Nat) :
    pagLoop envFull 100 50 out reqs = (.ok (out ++ List.replicate 100 Value.null), reqs + 1) := by
  rw [pagLoop]
  simp [envFull, fullPage, pagedItems, jsGet, jsGet.go, toList_ofList, truthyOpt, truthy, respOk]

theorem pagLoop_envFull_reqs :
    ∀ (k page : Nat) (out : List Value) (reqs : Nat), page + k = 51 → 1 ≤ k →
      (pagLoop envFull 100 page out reqs).2 = reqs + k := by
  intro k
  induction k with
  | zero => intro page out reqs hpk h1; omega
  | succ n ih =>
    intro page out reqs hpk h1
    by_cases hn : n = 0
    · have hp : page = 50 := by omega
      subst hp hn
      rw [pagLoop_envFull_last]
    · have hpage : page + 1 ≤ 50 := by omega
      rw [pagLoop_envFull_step page out reqs hpage]
      have h2 := ih (page + 1) (out ++ List.replicate 100 Value.null) (reqs + 1) (by omega) (by omega)
      omega

theorem pagLoop_reqs_le (env : PageEnv) (ps : Nat) :
    ∀ (k page : Nat) (out : List Value) (reqs : Nat), page + k = 51 → 1 ≤ k →
      (pagLoop env ps page out reqs).2 ≤ reqs + k := by
  intro k
  induction k with
  | zero => intro page out reqs hpk h1; omega
  | succ n ih =>
    intro page out reqs hpk h1
    rw [pagLoop]
    rcases henv : env (page + 1) with _ | res
    · dsimp only
      omega
    · dsimp only
      split_ifs with h404 hok hempty hfirst hbreak hcap <;>
        first
        | omega
        | (have h2 := ih (page + 1) (out ++ pagedItems res.json) (reqs + 1) (by omega) (by omega)
           omega)

theorem replicate_app (n m : Nat) :
    List.replicate n Value.null ++ List.replicate m Value.null = List.replicate (n + m) Value.null := by
  rw [List.replicate_add]

theorem fullPage_status (n : Nat) : (fullPage n).status = 200 := rfl

theorem fullPage_respOk (n : Nat) : respOk (fullPage n) = true := rfl

theorem fullPage_result_truthy (n : Nat) :
    truthyOpt (jsGet (fullPage n).json "result") = true := by
  simp [fullPage, jsGet, jsGet.go, truthyOpt, truthy]


mutual

theorem vbeq_eq : ∀ a b : Value, vbeq a b = true ↔ a = b
  | .null, b => by cases b <;> simp [vbeq]
  | .undefVal, b => by cases b <;> simp [vbeq]
  | .bool x, b => by cases b <;> simp [vbeq]
  | .num x, b => by cases b <;> simp [vbeq]
  | .str x, b => by cases b <;> simp [vbeq]
  | .arr xs, b => by
      cases b <;> simp only [vbeq, Bool.false_eq_true, false_iff, reduceCtorEq,
        not_false_eq_true, Value.arr.injEq]
      exact vlbeq_eq xs _
  | .obj fs, b => by
      cases b <;> simp only [vbeq, Bool.false_eq_true, false_iff, reduceCtorEq,
        not_false_eq_true, Value.obj.injEq]
      exact fbeq_eq fs _

theorem vlbeq_eq : ∀ a b : ValueList, vlbeq a b = true ↔ a = b
  | .nil, b => by cases b <;> simp [vlbeq]
  | .cons x xs, b => by
      cases b with
      | nil => simp [vlbeq]
      | cons y ys =>
        simp only [vlbeq, Bool.and_eq_true, ValueList.cons.injEq]
        rw [vbeq_eq x y, vlbeq_eq xs ys]

theorem fbeq_eq : ∀ a b : Fields, fbeq a b = true ↔ a = b
  | .nil, b => by cases b <;> simp [fbeq]
  | .cons k x xs, b => by
      cases b with
      | nil => simp [fbeq]
      | cons l y ys =>
        simp only [fbeq, Bool.and_eq_true, Fields.cons.injEq, beq_iff_eq]
        rw [vbeq_eq x y, fbeq_eq xs ys]
        tauto

end


mutual

theorem visit_sound : ∀ (v : Value) (s needle : String), hasStrLeaf s v = true →
    jsIncludes (lowerStr s) needle = true → visit needle v = true
  | .null, s, needle, h, _ => by simp [hasStrLeaf] at h
  | .undefVal, s, needle, h, _ => by simp [hasStrLeaf] at h
  | .bool b, s, needle, h, _ => by simp [hasStrLeaf] at h
  | .num n, s, needle, h, _ => by simp [hasStrLeaf] at h
  | .str t, s, needle, h, hinc => by
      simp [hasStrLeaf] at h
      subst h
      simpa [visit] using hinc
  | .arr xs, s, needle, h, hinc => by
      simp only [hasStrLeaf] at h
      simpa [visit] using visitList_sound xs s needle h hinc
  | .obj fs, s, needle, h, hinc => by
      simp only [hasStrLeaf] at h
      simpa [visit] using visitFields_sound fs s needle h hinc

theorem visitList_sound : ∀ (xs : ValueList) (s needle : String), hasStrLeafList s xs = true →
    jsIncludes (lowerStr s) needle = true → visitList needle xs = true
  | .nil, s, needle, h, _ => by simp [hasStrLeafList] at h
  | .cons v rest, s, needle, h, hinc => by
      simp only [hasStrLeafList, Bool.or_eq_true] at h
      rcases h with h | h
      · simp [visitList, visit_sound v s needle h hinc]
      · simp [visitList, visitList_sound rest s needle h hinc]

theorem visitFields_sound : ∀ (fs : Fields) (s needle : String), hasStrLeafFields s fs = true →
    jsIncludes (lowerStr s) needle = true → visitFields needle fs = true
  | .nil, s, needle, h, _ => by simp [hasStrLeafFields] at h
  | .cons k v rest, s, needle, h, hinc => by
      simp only [hasStrLeafFields, Bool.or_eq_true] at h
      rcases h with h | h
      · simp [visitFields, visit_sound v s needle h hinc]
      · simp [visitFields, visitFields_sound rest s needle h hinc]

end

theorem pushRow_mem {p : String} {path : String} {v : Value}
    (h : p ∈ (pushRow path v).map Prod.fst) : p = path ∧ path ≠ "params" ∧ path ≠ "query_context" := by
  by_cases hp : path = "params" ∨ path = "query_context"
  · simp [pushRow, hp] at h
  · push_neg at hp
    simp [pushRow, hp.1, hp.2] at h
    exact ⟨h, hp⟩

mutual

theorem walkVal_ne : ∀ (v : Value) (pre p : String), p ∈ (walkVal v pre).map Prod.fst →
    p ≠ "params" ∧ p ≠ "query_context"
  | .obj fs, pre, p, h => walkFields_ne fs pre p h
  | .null, pre, p, h => by
      have h2 := pushRow_mem h
      exact ⟨h2.1 ▸ h2.2.1, h2.1 ▸ h2.2.2⟩
  | .undefVal, pre, p, h => by
      have h2 := pushRow_mem h
      exact ⟨h2.1 ▸ h2.2.1, h2.1 ▸ h2.2.2⟩
  | .bool b, pre, p, h => by
      have h2 := pushRow_mem h
      exact ⟨h2.1 ▸ h2.2.1, h2.1 ▸ h2.2.2⟩
  | .num n, pre, p, h => by
      have h2 := pushRow_mem h
      exact ⟨h2.1 ▸ h2.2.1, h2.1 ▸ h2.2.2⟩
  | .str s, pre, p, h => by
      have h2 := pushRow_mem h
      exact ⟨h2.1 ▸ h2.2.1, h2.1 ▸ h2.2.2⟩
  | .arr xs, pre, p, h => by
      have h2 := pushRow_mem h
      exact ⟨h2.1 ▸ h2.2.1, h2.1 ▸ h2.2.2⟩

theorem walkFields_ne : ∀ (fs : Fields) (pre p : String), p ∈ (walkFields fs pre).map Prod.fst →
    p ≠ "params" ∧ p ≠ "query_context"
  | .nil, pre, p, h => by simp [walkFields] at h
  | .cons k v rest, pre, p, h => by
      rcases v with _ | _ | b | n | s | xs | inner
      case obj =>
        rw [walkFields, List.map_append] at h
        rcases List.mem_append.mp h with h | h
        · by_cases hk : k = "params" ∨ k = "query_context"
          · rw [if_pos hk] at h
            have h2 := pushRow_mem h
            exact ⟨h2.1 ▸ h2.2.1, h2.1 ▸ h2.2.2⟩
          · rw [if_neg hk, List.map_append] at h
            rcases List.mem_append.mp h with h | h
            · have h2 := pushRow_mem h
              exact ⟨h2.1 ▸ h2.2.1, h2.1 ▸ h2.2.2⟩
            · exact walkVal_ne (.obj inner) (pre ++ k ++ ".") p h
        · exact walkFields_ne rest pre p h
      all_goals
        simp only [walkFields, List.map_append, List.mem_append] at h
        rcases h with h | h
        · have h2 := pushRow_mem h
          exact ⟨h2.1 ▸ h2.2.1, h2.1 ▸ h2.2.2⟩
        · exact walkFields_ne rest pre p h

end

theorem mem_insertDesc {z x : String × Nat} : ∀ {l : CountMap}, z ∈ insertDesc x l → z = x ∨ z ∈ l := by
  intro l
  induction l with
  | nil => simp [insertDesc]
  | cons w ws ihw =>
    intro hz
    rw [insertDesc] at hz
    by_cases hc2 : w.2 > x.2
    · rw [if_pos hc2] at hz
      rcases List.mem_cons.mp hz with h3 | h3
      · exact Or.inr (h3 ▸ List.mem_cons_self w ws)
      · rcases ihw h3 with h4 | h4
        · exact Or.inl h4
        · exact Or.inr (List.mem_cons_of_mem w h4)
    · rw [if_neg hc2] at hz
      rcases List.mem_cons.mp hz with h3 | h3
      · exact Or.inl h3
      · exact Or.inr h3

theorem insertDesc_pairwise (x : String × Nat) (l : CountMap)
    (h : List.Pairwise (fun a b : String × Nat => b.2 ≤ a.2) l) :
    List.Pairwise (fun a b : String × Nat => b.2 ≤ a.2) (insertDesc x l) := by
  induction l with
  | nil => simp [insertDesc]
  | cons y ys ih =>
    rw [insertDesc]
    rcases List.pairwise_cons.mp h with ⟨hy, hys⟩
    by_cases hc : y.2 > x.2
    · rw [if_pos hc]
      refine List.pairwise_cons.mpr ⟨?_, ih hys⟩
      intro z hz
      rcases mem_insertDesc hz with h3 | h3
      · subst h3; omega
      · exact hy z h3
    · rw [if_neg hc]
      refine List.pairwise_cons.mpr ⟨?_, h⟩
      intro z hz
      rcases List.mem_cons.mp hz with h3 | h3
      · subst h3; omega
      · have h4 := hy z h3
        omega

theorem sortDesc_pairwise (l : CountMap) :
    List.Pairwise (fun a b : String × Nat => b.2 ≤ a.2) (sortDesc l) := by
  induction l with
  | nil => simp [sortDesc]
  | cons x xs ih => exact insertDesc_pairwise x (sortDesc xs) ih

theorem jsGet_setField_same : ∀ (fs : Fields) (k : String) (v : Value),
    jsGet (.obj (setField fs k v)) k = some v
  | .nil, k, v => by simp [setField, jsGet, jsGet.go]
  | .cons k0 v0 rest, k, v => by
      rw [setField]
      by_cases hk : k0 = k
      · rw [if_pos hk]
        simp [jsGet, jsGet.go, hk]
      · rw [if_neg hk]
        simpa [jsGet, jsGet.go, hk] using jsGet_setField_same rest k v

theorem jsGet_setField_ne : ∀ (fs : Fields) (k : String) (v : Value) (k2 : String), k ≠ k2 →
    jsGet (.obj (setField fs k v)) k2 = jsGet (.obj fs) k2
  | .nil, k, v, k2, h => by
      simp [setField, jsGet, jsGet.go, fun hh : k = k2 => h hh]
  | .cons k0 v0 rest, k, v, k2, h => by
      rw [setField]
      by_cases hk : k0 = k
      · subst hk
        simp [jsGet, jsGet.go, fun hh : k0 = k2 => h hh]
      · rw [if_neg hk]
        by_cases hk2 : k0 = k2
        · simp [jsGet, jsGet.go, hk2]
        · simpa [jsGet, jsGet.go, hk2] using jsGet_setField_ne rest k v k2 h

theorem mkMember_team_id (tag : Value) (cand : String) (m : Value) :
    jsGet (mkMember tag cand m) "_team_id" = some tag := by
  simp only [mkMember]
  rw [jsGet_setField_ne _ _ _ _ (by decide), jsGet_setField_ne _ _ _ _ (by decide),
    jsGet_setField_ne _ _ _ _ (by decide), jsGet_setField_ne _ _ _ _ (by decide),
    jsGet_setField_ne _ _ _ _ (by decide), jsGet_setField_ne _ _ _ _ (by decide),
    jsGet_setField_ne _ _ _ _ (by decide), jsGet_setField_same]

theorem mkMember_identifier (tag : Value) (cand : String) (m : Value) :
    jsGet (mkMember tag cand m) "_team_identifier_used" = some (.str cand) := by
  simp only [mkMember]
  rw [jsGet_setField_ne _ _ _ _ (by decide), jsGet_setField_ne _ _ _ _ (by decide),
    jsGet_setField_ne _ _ _ _ (by decide), jsGet_setField_ne _ _ _ _ (by decide),
    jsGet_setField_ne _ _ _ _ (by decide), jsGet_setField_ne _ _ _ _ (by decide),
    jsGet_setField_same]

theorem mkAuditRecord_team_id (tag : Value) (cand : String) (l : Value) :
    jsGet (mkAuditRecord tag cand l) "_team_id" = some tag := by
  simp only [mkAuditRecord]
  rw [jsGet_setField_ne _ _ _ _ (by decide), jsGet_setField_same]

theorem mkAuditRecord_identifier (tag : Value) (cand : String) (l : Value) :
    jsGet (mkAuditRecord tag cand l) "_team_identifier_used" = some (.str cand) := by
  simp only [mkAuditRecord]
  rw [jsGet_setField_same]

theorem tryPatterns_shape (env : UrlEnv) (tag : Value) (cand : String) :
    ∀ (ps : List String) (items : List Value), tryPatterns env tag cand ps = some items →
      ∀ m ∈ items, ∃ l, m = mkMember tag cand l := by
  intro ps
  induction ps with
  | nil => intro items h; simp [tryPatterns] at h
  | cons p rest ih =>
    intro items h m hm
    rw [tryPatterns] at h
    rcases henv : env (buildEp p cand) with _ | res
    · rw [henv] at h
      exact ih items h m hm
    · rw [henv] at h
      dsimp only at h
      by_cases h404 : res.status = 404
      · rw [if_pos h404] at h
        exact ih items h m hm
      · rw [if_neg h404] at h
        by_cases hok : respOk res
        · rw [if_neg (by simp [hok])] at h
          have h2 : items = (memberItems res.json).map (mkMember tag cand) := by
            injection h with h3
            exact h3.symm
          subst h2
          rcases List.mem_map.mp hm with ⟨l, _, hl⟩
          exact ⟨l, hl.symm⟩
        · rw [if_pos (by simp [hok])] at h
          exact ih items h m hm

theorem fetchTeamMembers_go_shape (env : UrlEnv) (t : Value) :
    ∀ (cs : List String) (m : Value), m ∈ fetchTeamMembers.go env t cs →
      ∃ c ∈ cs, ∃ l, m = mkMember (teamTag t) c l := by
  intro cs
  induction cs with
  | nil => intro m hm; simp [fetchTeamMembers.go] at hm
  | cons c rest ih =>
    intro m hm
    rw [fetchTeamMembers.go] at hm
    rcases htry : tryPatterns env (teamTag t) c teamMembersFallbacks with _ | items
    · rw [htry] at hm
      rcases ih m hm with ⟨c2, hc2, l, hl⟩
      exact ⟨c2, List.mem_cons_of_mem c hc2, l, hl⟩
    · rw [htry] at hm
      rcases tryPatterns_shape env (teamTag t) c teamMembersFallbacks items htry m hm with ⟨l, hl⟩
      exact ⟨c, List.mem_cons_self c rest, l, hl⟩

theorem fetchAuditLogs_go_shape (env : UrlEnv) (t : Value) :
    ∀ (cs : List String) (m : Value), m ∈ fetchAuditLogs.go env t cs →
      ∃ c ∈ cs, ∃ l, m = mkAuditRecord (teamTag t) c l := by
  intro cs
  induction cs with
  | nil => intro m hm; simp [fetchAuditLogs.go] at hm
  | cons c rest ih =>
    intro m hm
    rw [fetchAuditLogs.go] at hm
    rcases henv : env ("/v2/audit/teams/" ++ encodeURIComponent c ++ "/logs") with _ | res
    · rw [henv] at hm
      rcases ih m hm with ⟨c2, hc2, l, hl⟩
      exact ⟨c2, List.mem_cons_of_mem c hc2, l, hl⟩
    · rw [henv] at hm
      dsimp only at hm
      by_cases h404 : res.status = 404
      · rw [if_pos h404] at hm
        rcases ih m hm with ⟨c2, hc2, l, hl⟩
        exact ⟨c2, List.mem_cons_of_mem c hc2, l, hl⟩
      · rw [if_neg h404] at hm
        by_cases hok : respOk res
        · rw [if_neg (by simp [hok])] at hm
          by_cases hlen : (auditItems res.json).length = 0
          · rw [if_pos hlen] at hm
            rcases ih m hm with ⟨c2, hc2, l, hl⟩
            exact ⟨c2, List.mem_cons_of_mem c hc2, l, hl⟩
          · rw [if_neg hlen] at hm
            rcases List.mem_map.mp hm with ⟨l, _, hl⟩
            exact ⟨c, List.mem_cons_self c rest, l, hl.symm⟩
        · rw [if_pos (by simp [hok])] at hm
          rcases ih m hm with ⟨c2, hc2, l, hl⟩
          exact ⟨c2, List.mem_cons_of_mem c hc2, l, hl⟩


theorem any_map_fst (map : List (Value × Value)) (f : Value → Bool) :
    (map.map Prod.fst).any f = map.any (fun p => f p.1) := by
  induction map with
  | nil => rfl
  | cons p ps ih => simp [ih]

theorem vbeq_false_symm {a b : Value} (h : ¬ vbeq a b = true) : vbeq b a = false := by
  rcases hv : vbeq b a with _ | _
  · rfl
  · exact absurd ((vbeq_eq a b).mpr ((vbeq_eq b a).mp hv).symm) h

theorem truthy_getD_of_truthyOpt {o : Option Value} (h : truthyOpt o = true) :
    truthy (o.getD .undefVal) = true := by
  cases o with
  | none => simp [truthyOpt] at h
  | some v => simpa [truthyOpt] using h

theorem truthy_getD_of_not_truthyOpt {o : Option Value} (h : truthyOpt o = false) :
    truthy (o.getD .undefVal) = false := by
  cases o with
  | none => simp [truthy]
  | some v => simpa [truthyOpt] using h

theorem usersFold_eq : ∀ (ms : List Value) (map : List (Value × Value)),
    usersFold map ms = map ++ usersNew (map.map Prod.fst) ms := by
  intro ms
  induction ms with
  | nil => intro map; simp [usersFold, usersNew]
  | cons m rest ih =>
    intro map
    rw [usersFold, usersNew, any_map_fst]
    split_ifs with h1 h2 <;>
      first
      | exact ih map
      | (rw [ih (map ++ [((memberIdOf m).getD .undefVal, mkUser ((memberIdOf m).getD .undefVal) m)])]
         simp [List.map_append])

theorem usersNew_ext : ∀ (ms : List Value) (s1 s2 : List Value),
    (∀ id, s1.any (fun s => vbeq s id) = s2.any (fun s => vbeq s id)) →
    usersNew s1 ms = usersNew s2 ms := by
  intro ms
  induction ms with
  | nil => intro s1 s2 _; simp [usersNew]
  | cons m rest ih =>
    intro s1 s2 hs
    rw [usersNew, usersNew, hs ((memberIdOf m).getD .undefVal)]
    split_ifs <;>
      first
      | exact ih s1 s2 hs
      | exact congrArg (List.cons _) (ih (s1 ++ [(memberIdOf m).getD .undefVal])
          (s2 ++ [(memberIdOf m).getD .undefVal]) (fun id => by simp [List.any_append, hs id]))

theorem usersNew_truthy_filter : ∀ (ms : List Value) (seen : List Value),
    usersNew seen ms = usersNew seen (ms.filter (fun m => truthyOpt (memberIdOf m))) := by
  intro ms
  induction ms with
  | nil => intro seen; simp [usersNew]
  | cons m rest ih =>
    intro seen
    by_cases ht : truthyOpt (memberIdOf m)
    · rw [List.filter_cons_of_pos (by simp [ht])]
      rw [usersNew, usersNew]
      split_ifs <;>
        first
        | exact ih seen
        | exact congrArg (List.cons _) (ih (seen ++ [(memberIdOf m).getD .undefVal]))
    · rw [List.filter_cons_of_neg (by simpa using ht)]
      rw [usersNew, if_pos ht]
      exact ih seen

theorem usersNew_seen_filter : ∀ (ms seen : List Value) (i : Value), truthy i = true →
    usersNew (seen ++ [i]) ms
      = usersNew seen (ms.filter (fun x => ¬ vbeq ((memberIdOf x).getD .undefVal) i)) := by
  intro ms
  induction ms with
  | nil => intro seen i _; simp [usersNew]
  | cons m rest ih =>
    intro seen i hti
    by_cases ht : ¬ truthyOpt (memberIdOf m)
    · have htf : truthyOpt (memberIdOf m) = false := by simpa using ht
      have hkeep : ¬ vbeq ((memberIdOf m).getD .undefVal) i = true := by
        intro hb
        have hieq := (vbeq_eq _ _).mp hb
        rw [← hieq] at hti
        rw [truthy_getD_of_not_truthyOpt htf] at hti
        cases hti
      rw [List.filter_cons_of_pos (by simpa using hkeep)]
      rw [usersNew, if_pos ht, usersNew, if_pos ht]
      exact ih seen i hti
    · by_cases hbeq : vbeq ((memberIdOf m).getD .undefVal) i = true
      · have hieq : ((memberIdOf m).getD Value.undefVal) = i := (vbeq_eq _ _).mp hbeq
        rw [List.filter_cons_of_neg (by simp [hbeq])]
        rw [usersNew, if_neg ht, if_pos (by
          simp only [List.any_append, Bool.or_eq_true]
          right
          simp [hieq, (vbeq_eq i i).mpr rfl])]
        exact ih seen i hti
      · rw [List.filter_cons_of_pos (by simp [hbeq])]
        have hanys : ((seen ++ [i]).any fun s => vbeq s ((memberIdOf m).getD .undefVal))
            = (seen.any fun s => vbeq s ((memberIdOf m).getD .undefVal)) := by
          have hf : vbeq i ((memberIdOf m).getD .undefVal) = false :=
            vbeq_false_symm hbeq
          simp [List.any_append, hf]
        rw [usersNew, usersNew, hanys]
        split_ifs with h1 h2 <;>
          first
          | exact ih seen i hti
          | · refine congrArg (List.cons _) ?_
              have hswap : usersNew ((seen ++ [i]) ++ [(memberIdOf m).getD .undefVal]) rest
                  = usersNew ((seen ++ [(memberIdOf m).getD .undefVal]) ++ [i]) rest := by
                refine usersNew_ext rest _ _ (fun id => ?_)
                simp only [List.any_append]
                cases seen.any fun s => vbeq s id <;> simp [Bool.or_comm]
              rw [show (seen ++ [i]) ++ [(memberIdOf m).getD Value.undefVal]
                  = seen ++ [i] ++ [(memberIdOf m).getD Value.undefVal] from rfl] at hswap
              rw [hswap]
              exact ih (seen ++ [(memberIdOf m).getD .undefVal]) i hti

/-! ## Theorems settling the claims -/

/-- C1 (counterexample): flattening `{a: {b: 1}, params: {x: 1}, details:
{params: {y: 2}}}` does *not* emit the path `details.params.y` - the walk
never recurses into an object held under a `params`/`query_context` key,
at any depth - refuting the claim that `details.params.y` is emitted. -/
theorem walk_flatten_counterexample :
    ¬ ("details.params.y" ∈ walkPaths flattenExample) := by decide

/-- C1 (amended): flattening `{a: {b: 1}, params: {x: 1}, details:
{params: {y: 2}}}` emits exactly the paths `a`, `a.b`, `details`,
`details.params` - so nested `params` paths are emitted as summary rows
while the bare top-level `params` is not - and in general the top-level
paths `params` and `query_context` are never emitted for any record;
recursion below a `params`/`query_context`-keyed object is suppressed at
every depth, so none of its children's paths appear. -/
theorem walk_flatten_amended :
    walkPaths flattenExample = ["a", "a.b", "details", "details.params"] ∧
    (∀ log : Value, "params" ∉ walkPaths log ∧ "query_context" ∉ walkPaths log) := by
  refine ⟨by decide, fun log => ⟨fun hmem => ?_, fun hmem => ?_⟩⟩
  · simp only [walkPaths, walkRows] at hmem
    exact (walkVal_ne log "" "params" hmem).1 rfl
  · simp only [walkPaths, walkRows] at hmem
    exact (walkVal_ne log "" "query_context" hmem).2 rfl

/-- C2 (code bug, evaluated at the failing input): for the record `{}`
(no workspace fields) the selectable workspace list offers `"unknown"`,
but the filter defaults the record's workspace to `'Unknown'` (capital U),
so the record is excluded under the selection `"unknown"` and included
under `"Unknown"` - contradicting the documented lowercase `"unknown"`
defaulting, which the list construction itself uses. -/
theorem workspace_unknown_filter_bug :
    workspacesList [Value.obj .nil] = ["ALL", "unknown"] ∧
    logPasses ctxNoParse "unknown" "" .week (Value.obj .nil) = false ∧
    logPasses ctxNoParse "Unknown" "" .week (Value.obj .nil) = true := by decide

/-- C3 (counterexample): for the team `{id: 5, name: "alpha"}` whose
membership fetch succeeds on the name candidate `"alpha"`, the produced
member record carries `_team_id = 5` but `_team_identifier_used =
"alpha"` - the two provenance fields differ, refuting the claim that
`_team_id` equals the candidate identifier that succeeded. -/
theorem team_id_provenance_counterexample :
    (fetchTeamMembers memEnv teamAlpha).map (fun m => jsGet m "_team_id")
      = [some (.num 5)] ∧
    (fetchTeamMembers memEnv teamAlpha).map (fun m => jsGet m "_team_identifier_used")
      = [some (.str "alpha")] ∧
    (Value.num 5 ≠ Value.str "alpha") :=
  ⟨rfl, rfl, fun h => Value.noConfusion h⟩

/-- C3 (amended): every member and audit-log record produced by the
per-team fan-out carries `_team_id` equal to `numericId ?? nameId` (the
team's `id`/`team_id`, falling back to `name`/`slug`/`title`), and
`_team_identifier_used` equal to one of the team's candidate identifier
strings (the one that succeeded); the two may differ. -/
theorem team_id_provenance_amended :
    (∀ (env : UrlEnv) (t m : Value), m ∈ fetchTeamMembers env t →
        jsGet m "_team_id" = some (teamTag t) ∧
        ∃ c ∈ teamIdentifiers t, jsGet m "_team_identifier_used" = some (.str c)) ∧
    (∀ (env : UrlEnv) (t m : Value), m ∈ fetchAuditLogs env t →
        jsGet m "_team_id" = some (teamTag t) ∧
        ∃ c ∈ teamIdentifiers t, jsGet m "_team_identifier_used" = some (.str c)) := by
  constructor
  · intro env t m hm
    rcases fetchTeamMembers_go_shape env t (teamIdentifiers t) m
      (by simpa [fetchTeamMembers] using hm) with ⟨c, hc, l, hl⟩
    subst hl
    exact ⟨mkMember_team_id _ _ _, c, hc, mkMember_identifier _ _ _⟩
  · intro env t m hm
    rcases fetchAuditLogs_go_shape env t (teamIdentifiers t) m
      (by simpa [fetchAuditLogs] using hm) with ⟨c, hc, l, hl⟩
    subst hl
    exact ⟨mkAuditRecord_team_id _ _ _, c, hc, mkAuditRecord_identifier _ _ _⟩

/-- C3 (witness): the amended theorem applied to the concrete fan-out for
`{id: 5, name: "alpha"}`. -/
theorem team_id_provenance_amended_witness :
    memberAlpha ∈ fetchTeamMembers memEnv teamAlpha ∧
    jsGet memberAlpha "_team_id" = some (teamTag teamAlpha) ∧
    ∃ c ∈ teamIdentifiers teamAlpha,
      jsGet memberAlpha "_team_identifier_used" = some (.str c) :=
  have hmem : memberAlpha ∈ fetchTeamMembers memEnv teamAlpha :=
    (rfl : fetchTeamMembers memEnv teamAlpha = [memberAlpha]) ▸ List.mem_singleton.mpr rfl
  ⟨hmem, (team_id_provenance_amended.1 memEnv teamAlpha memberAlpha hmem).1,
    (team_id_provenance_amended.1 memEnv teamAlpha memberAlpha hmem).2⟩

/-- C4 (counterexample): against an endpoint that always answers a full
100-item `result` page, the pagination loop issues exactly 51 page
requests - the `page > 50` cap is only checked after the request for that
page has been issued - refuting the claim that at most 50 requests are
ever issued and never a 51st. -/
theorem pagination_cap_counterexample :
    (pagedFetch envFull 100).2 = 51 ∧ ¬ ((pagedFetch envFull 100).2 ≤ 50) := by
  have h := pagLoop_envFull_reqs 51 0 [] 0 (by omega) (by omega)
  rw [pagedFetch]
  omega

/-- C4 (amended): the pagination loop stops on an empty page, a short
page, or the page cap; since the `page > 50` check runs after the
request for the incremented page, at most 51 page requests are ever
issued against a single candidate endpoint - never a 52nd - and an empty
follow-up page stops the loop at once (two requests for a full page
followed by an empty one). -/
theorem pagination_cap_amended :
    (∀ (env : PageEnv) (ps : Nat), (pagedFetch env ps).2 ≤ 51) ∧
    (pagedFetch envEmpty2 100).2 = 2 := by
  constructor
  · intro env ps
    have h := pagLoop_reqs_le env ps 51 0 [] 0 (by omega) (by omega)
    rw [pagedFetch]
    omega
  · rw [pagedFetch]
    have s1 : pagLoop envEmpty2 100 0 [] 0 = pagLoop envEmpty2 100 1 (List.replicate 100 Value.null) 1 := by
      rw [pagLoop]
      have he : envEmpty2 (0 + 1) = some (fullPage 100) := by norm_num [envEmpty2]
      rw [he]
      simp [pagedItems_fullPage, fullPage_status, fullPage_respOk, fullPage_result_truthy]
    have s2 : pagLoop envEmpty2 100 1 (List.replicate 100 Value.null) 1
        = (.ok (List.replicate 100 Value.null), 2) := by
      rw [pagLoop]
      have he : envEmpty2 (1 + 1) = some (fullPage 0) := by norm_num [envEmpty2]
      rw [he]
      simp [pagedItems_fullPage, fullPage_status, fullPage_respOk, fullPage_result_truthy]
    rw [s1, s2]

/-- C5: under the analytics time-range filter, a record whose timestamp
parses to a moment exactly 8 days in the past is excluded under the
7-day `week` window and included under the 30-day `month` window; and
any record whose timestamp field is missing/falsy or fails to parse
(`Date.parse` gives `NaN`) passes the filter under every range. -/
theorem time_range_filter_correct :
    (∀ (ctx : FilterCtx) (l : Value),
        truthyOpt (jsGet l "timestamp") = true →
        ctx.parseDate ((jsGet l "timestamp").getD .undefVal)
          = some (ctx.now - 8 * 24 * 3600 * 1000) →
        passesTime ctx .week l = false ∧ passesTime ctx .month l = true) ∧
    (∀ (ctx : FilterCtx) (r : TRange) (l : Value),
        truthyOpt (jsGet l "timestamp") = false ∨
          ctx.parseDate ((jsGet l "timestamp").getD .undefVal) = none →
        passesTime ctx r l = true) := by
  constructor
  · intro ctx l h1 h2
    rw [passesTime, passesTime]
    simp only [h1, if_true, h2, rangeMs]
    constructor
    · rw [if_pos (by omega)]
    · rw [if_neg (by omega)]
  · intro ctx r l h
    rcases h with h | h
    · rw [passesTime]
      simp [h]
    · rw [passesTime]
      by_cases h1 : truthyOpt (jsGet l "timestamp")
      · simp [h1, h]
      · simp [h1]

/-- C5 (witness): the theorem applied to a concrete record parsing to
eight days before a zero `now`, and to a record with an unparseable
timestamp under the `year` range. -/
theorem time_range_filter_correct_witness :
    truthyOpt (jsGet log8d "timestamp") = true ∧
    ctx8d.parseDate ((jsGet log8d "timestamp").getD .undefVal)
      = some (ctx8d.now - 8 * 24 * 3600 * 1000) ∧
    (passesTime ctx8d .week log8d = false ∧ passesTime ctx8d .month log8d = true) ∧
    passesTime ctx8d .year logBadTs = true :=
  ⟨by decide, by decide,
    time_range_filter_correct.1 ctx8d log8d (by decide) (by decide),
    time_range_filter_correct.2 ctx8d .year logBadTs (Or.inr (by decide))⟩

/-- C6 (counterexample): for the tie `[{action: "chart:view",
entity_name: "2"}, {action: "chart:view", entity_name: "1"}]` the
computed `chartViews` is `[("1", 1), ("2", 1)]` - JS object iteration
puts canonical array-index keys in ascending numeric order before the
stable sort runs - not the insertion order `[("2", 1), ("1", 1)]` the
claim predicts for ties. -/
theorem aggregation_tie_order_counterexample :
    metricsChartViews [chartViewOn "2", chartViewOn "1"] = [("1", 1), ("2", 1)] ∧
    metricsChartViews [chartViewOn "2", chartViewOn "1"] ≠ [("2", 1), ("1", 1)] := by decide

/-- C6 (amended): the concrete example `[A, A, B]` yields `chartViews =
[("A", 2), ("B", 1)]`; every one of the four aggregate series is sorted
descending by count; and ties are kept in the iteration order of the
underlying JS object - canonical array-index labels first in ascending
numeric order, then remaining labels in insertion order of first
occurrence - as the `["2", "1"]` tie shows. -/
theorem aggregation_amended :
    metricsChartViews [chartViewOn "A", chartViewOn "A", chartViewOn "B"]
      = [("A", 2), ("B", 1)] ∧
    metricsChartViews [chartViewOn "2", chartViewOn "1"] = [("1", 1), ("2", 1)] ∧
    (∀ ls : List Value,
      List.Pairwise (fun a b : String × Nat => b.2 ≤ a.2) (metricsChartViews ls)) ∧
    (∀ ls : List Value,
      List.Pairwise (fun a b : String × Nat => b.2 ≤ a.2) (metricsDashboardViews ls)) ∧
    (∀ ls : List Value,
      List.Pairwise (fun a b : String × Nat => b.2 ≤ a.2) (metricsActiveUsers ls)) ∧
    (∀ ls : List Value,
      List.Pairwise (fun a b : String × Nat => b.2 ≤ a.2) (metricsActionCounts ls)) := by
  refine ⟨by decide, by decide, ?_, ?_, ?_, ?_⟩ <;>
    intro ls
  · rw [metricsChartViews]
    split_ifs
    · exact List.Pairwise.nil
    · exact sortDesc_pairwise _
  · rw [metricsDashboardViews]
    split_ifs
    · exact List.Pairwise.nil
    · exact sortDesc_pairwise _
  · rw [metricsActiveUsers]
    split_ifs
    · exact List.Pairwise.nil
    · exact sortDesc_pairwise _
  · rw [metricsActionCounts]
    split_ifs
    · exact List.Pairwise.nil
    · exact sortDesc_pairwise _

set_option maxRecDepth 4000

/-- C7: against a candidate endpoint answering `result` pages of sizes
100, 100, 40 under `pageSize = 100` (and full pages from page 4 on, so a
fourth request would be visible), the pagination loop returns exactly
240 items and issues exactly 3 page requests. -/
theorem pagination_three_pages :
    pagedFetch env240 100 = (.ok (List.replicate 240 Value.null), 3) := by
  show pagLoop env240 100 0 [] 0 = _
  have s1 : pagLoop env240 100 0 [] 0 = pagLoop env240 100 1 (List.replicate 100 Value.null) 1 := by
    rw [pagLoop]
    have he : env240 (0 + 1) = some (fullPage 100) := by norm_num [env240]
    rw [he]
    simp [pagedItems_fullPage, fullPage_status, fullPage_respOk, fullPage_result_truthy]
  have s2 : pagLoop env240 100 1 (List.replicate 100 Value.null) 1
      = pagLoop env240 100 2 (List.replicate 200 Value.null) 2 := by
    rw [pagLoop]
    have he : env240 (1 + 1) = some (fullPage 100) := by norm_num [env240]
    rw [he]
    simp [pagedItems_fullPage, fullPage_status, fullPage_respOk, fullPage_result_truthy,
      replicate_app]
  have s3 : pagLoop env240 100 2 (List.replicate 200 Value.null) 2
      = (.ok (List.replicate 240 Value.null), 3) := by
    rw [pagLoop]
    have he : env240 (2 + 1) = some (fullPage 40) := by norm_num [env240]
    rw [he]
    simp [pagedItems_fullPage, fullPage_status, fullPage_respOk, fullPage_result_truthy,
      replicate_app]
  rw [s1, s2, s3]

theorem authBasicPhase_trace (env : AuthEnv) (c : Option String) (tr : List AuthReq) :
    (authBasicPhase env c tr).trace = tr ++ [.basicGet] := by
  rw [authBasicPhase]
  rcases env.basicGet with _ | res
  · dsimp only
    split_ifs <;> rfl
  · dsimp only
    by_cases hok : authRespOk res
    · rw [if_pos hok]
      rcases hext : extractJWT res.json res.authHeader res.xAccessToken with _ | v
      · dsimp only
        split_ifs <;> rfl
      · dsimp only
        split_ifs <;> rfl
    · rw [if_neg hok]
      split_ifs <;> rfl

/-- C8: when the primary JSON POST of the credential exchange returns
HTTP 400, exactly one retry POST with the legacy field names
(`api_token`/`api_secret`) is issued immediately after it; the single
Basic GET follows if and only if that retry yields neither a truthy
token nor a session cookie (including when the retry itself fails),
and is not issued when the retry produces a token or cookie. -/
theorem auth_fallback_retry :
    ∀ (env : AuthEnv) (r1 : AuthResp), env.postPrimary = some r1 → r1.status = 400 →
      ((env.postLegacy = none →
          (obtainJWTFresh env).trace = [.postPrimary, .postLegacy, .basicGet]) ∧
       (∀ r2, env.postLegacy = some r2 →
          (authRespOk r2 = false ∨
            (truthyOpt (extractJWT r2.json r2.authHeader r2.xAccessToken) = false ∧
             cookieTruthy (capturedCookie r2) = false)) →
          (obtainJWTFresh env).trace = [.postPrimary, .postLegacy, .basicGet]) ∧
       (∀ r2, env.postLegacy = some r2 → authRespOk r2 = true →
          (truthyOpt (extractJWT r2.json r2.authHeader r2.xAccessToken) = true ∨
           cookieTruthy (capturedCookie r2) = true) →
          (obtainJWTFresh env).trace = [.postPrimary, .postLegacy])) := by
  intro env r1 hp hst
  rw [obtainJWTFresh, hp]
  dsimp only
  rw [if_pos hst, if_pos hst]
  refine ⟨?_, ?_, ?_⟩
  · intro hleg
    rw [hleg]
    dsimp only
    rw [authBasicPhase_trace]; rfl
  · intro r2 hleg hbad
    rw [hleg]
    dsimp only
    rcases hbad with hbad | ⟨hext, hck⟩
    · rw [if_neg (by simp [hbad])]
      rw [authBasicPhase_trace]; rfl
    · by_cases hok : authRespOk r2
      · rw [if_pos hok]
        rcases hext2 : extractJWT r2.json r2.authHeader r2.xAccessToken with _ | v
        · dsimp only
          rw [if_neg (by simp [hck]), authBasicPhase_trace]; rfl
        · dsimp only
          have hvf : truthy v = false := by
            rw [hext2] at hext
            simpa [truthyOpt] using hext
          rw [if_neg (by simp [hvf]), if_neg (by simp [hck]), authBasicPhase_trace]; rfl
      · rw [if_neg hok, authBasicPhase_trace]; rfl
  · intro r2 hleg hok hgood
    rw [hleg]
    dsimp only
    rw [if_pos hok]
    rcases hext2 : extractJWT r2.json r2.authHeader r2.xAccessToken with _ | v
    · dsimp only
      rcases hgood with hgood | hgood
      · rw [hext2] at hgood
        simp [truthyOpt] at hgood
      · rw [if_pos hgood]
    · dsimp only
      rcases hgood with hgood | hgood
      · have hvt : truthy v = true := by
          rw [hext2] at hgood
          simpa [truthyOpt] using hgood
        rw [if_pos hvt]
      · by_cases hvt : truthy v
        · rw [if_pos hvt]
        · rw [if_neg hvt, if_pos hgood]

/-- C8 (witness): the theorem applied to two concrete env runs - a 400
then an empty-but-ok retry (Basic follows), and a 400 then a retry
bearing `access_token` (no Basic request). -/
theorem auth_fallback_retry_witness :
    (obtainJWTFresh authEnvRetry).trace = [.postPrimary, .postLegacy, .basicGet] ∧
    (obtainJWTFresh authEnvRetryTok).trace = [.postPrimary, .postLegacy] :=
  ⟨(auth_fallback_retry authEnvRetry authResp400 rfl rfl).2.1 authRespEmptyOk rfl
      (Or.inr ⟨by decide, by decide⟩),
   (auth_fallback_retry authEnvRetryTok authResp400 rfl rfl).2.2 authRespToken rfl
      (by decide) (Or.inl (by decide))⟩

/-- C9: the free-text search predicate returns `true` for the empty
query on every record, and returns `true` whenever the record contains a
string leaf `v` at any depth and the lowercased query is a substring of
the lowercased `v`. -/
theorem search_empty_and_substring :
    (∀ r : Value, search r "" = true) ∧
    (∀ (r : Value) (v q : String), hasStrLeaf v r = true →
        jsIncludes (lowerStr v) (lowerStr q) = true → search r q = true) := by
  constructor
  · intro r
    simp [search]
  · intro r v q hleaf hinc
    rw [search]
    by_cases hq : q = ""
    · simp [hq]
    · rw [if_neg hq]
      exact visit_sound r v (lowerStr q) hleaf hinc

/-- C9 (witness): the theorem applied to `{a: ["Hello World"]}` with the
empty query and with the case-insensitive substring query `"LO WO"`. -/
theorem search_empty_and_substring_witness :
    search searchSample "" = true ∧
    hasStrLeaf "Hello World" searchSample = true ∧
    jsIncludes (lowerStr "Hello World") (lowerStr "LO WO") = true ∧
    search searchSample "LO WO" = true :=
  ⟨search_empty_and_substring.1 searchSample, by decide, by decide,
   search_empty_and_substring.2 searchSample "Hello World" "LO WO" (by decide) (by decide)⟩

/-- C10: when users are derived from team-member records, a member whose
`user_id || id || (user && user.id)` chain is falsy contributes nothing
(the derived list equals that of the member list with all such members
removed - a numeric id of 0 is silently dropped, as the concrete record
shows), and when several members resolve to the same id only the first
occurrence's field values are kept: the derived list starts with the
user built from the first member and continues with the remaining
members stripped of every later member with the same id. -/
theorem derived_users_dedup :
    (∀ ms : List Value,
        derivedUsers ms = derivedUsers (ms.filter (fun m => truthyOpt (memberIdOf m)))) ∧
    (∀ (m : Value) (ms : List Value), truthyOpt (memberIdOf m) = true →
        derivedUsers (m :: ms)
          = mkUser ((memberIdOf m).getD .undefVal) m ::
            derivedUsers (ms.filter (fun x => ¬ vbeq ((memberIdOf x).getD .undefVal)
              ((memberIdOf m).getD .undefVal)))) ∧
    derivedUsers [zeroIdMember] = [] := by
  refine ⟨?_, ?_, rfl⟩
  · intro ms
    rw [derivedUsers, derivedUsers, usersFold_eq, usersFold_eq]
    simp only [List.nil_append, List.map_nil]
    rw [← usersNew_truthy_filter]
  · intro m ms ht
    rw [derivedUsers, derivedUsers, usersFold_eq, usersFold_eq]
    simp only [List.nil_append, List.map_nil]
    rw [usersNew, if_neg (by simp [ht]), if_neg (by simp)]
    rw [usersNew_seen_filter ms [] _ (truthy_getD_of_truthyOpt ht)]
    simp

/-- C10 (witness): the theorem applied to two members sharing `user_id =
7` - the derived list keeps the first member's fields - and to the
falsy-id record. -/
theorem derived_users_dedup_witness :
    truthyOpt (memberIdOf dupMemberA) = true ∧
    derivedUsers [dupMemberA, dupMemberB]
      = mkUser ((memberIdOf dupMemberA).getD .undefVal) dupMemberA ::
        derivedUsers ([dupMemberB].filter (fun x => ¬ vbeq ((memberIdOf x).getD .undefVal)
          ((memberIdOf dupMemberA).getD .undefVal))) :=
  ⟨by decide, derived_users_dedup.2.1 dupMemberA [dupMemberB] (by decide)⟩
